import Mathlib

/-!
Verification development for the watcher program (src/watcher.js): a local
directory tree is mirrored to a remote object store.  The definitions below
are a shallow embedding of the program's components — the key mapper
(`localPathToKey`), the retrying executor (`uploadFileE`, `deleteKeyE`), the
reconciliation walker (`walkEnt`), the per-key debouncer (`scheduleOp`) and
the orchestration of `main` — followed by theorems settling the specified
properties.
-/

namespace Watcher

/-! ## Key Mapper: `localPathToKey` (watcher.js lines 43-47)

The source computes `path.relative(path.resolve(LOCAL_DIR), path.resolve(p))`
and then rewrites every OS path separator to `/`
(`rel.split(path.sep).join("/")`).  We embed the POSIX-style semantics of
`path.resolve` / `path.relative` over a parametric separator character `sep`:
paths are strings, components are obtained by splitting on `sep`, resolution
normalises `.`, `..` and empty components against an absolute working
directory `cwd`. -/

/-- Splitting a character list on a separator (the semantics of JS
`String.prototype.split` with a one-character separator). -/
def splitChars (sep : Char) : List Char → List (List Char)
  | [] => [[]]
  | c :: cs =>
    match splitChars sep cs with
    | [] => [[]]
    | g :: gs => if c = sep then [] :: g :: gs else (c :: g) :: gs

/-- Joining pieces with a separator (the semantics of JS
`Array.prototype.join`). -/
def joinSep (x : List Char) : List (List Char) → List Char
  | [] => []
  | [p] => p
  | p :: q :: ps => p ++ x ++ joinSep x (q :: ps)

/-- Split a string into path components on the separator character. -/
def splitStr (sep : Char) (s : String) : List String :=
  (splitChars sep s.toList).map String.mk

/-- One step of path normalisation: `""` and `"."` are dropped, `".."` pops
the last accepted component (a no-op at the root), anything else is kept.
This is the normalisation performed by Node's `path.resolve`. -/
def normFold (acc : List String) (c : String) : List String :=
  if c = "" ∨ c = "." then acc
  else if c = ".." then acc.dropLast
  else acc ++ [c]

/-- `resolveComps sep cwd p` — the component list of Node
`path.resolve(p)` run with absolute working directory `cwd`: an absolute
`p` is normalised on its own, a relative `p` is normalised on top of the
normalised `cwd`. -/
def resolveComps (sep : Char) (cwd p : String) : List String :=
  let base :=
    if p.toList.head? = some sep then []
    else (splitStr sep cwd).foldl normFold []
  (splitStr sep p).foldl normFold base

/-- Drop the longest common prefix of two component lists, returning the two
remainders (the core of Node `path.relative`). -/
def dropCommon : List String → List String → List String × List String
  | a :: as, b :: bs =>
    if a = b then dropCommon as bs else (a :: as, b :: bs)
  | as, bs => (as, bs)

/-- The component list of Node `path.relative(resolve(localDir), resolve(p))`:
one `".."` per leftover component of the source, followed by the leftover
components of the target. -/
def relParts (sep : Char) (cwd localDir p : String) : List String :=
  let r := dropCommon (resolveComps sep cwd localDir) (resolveComps sep cwd p)
  List.replicate r.1.length ".." ++ r.2

/-- The character list of the relative path string, components joined by the
OS separator. -/
def relativeChars (sep : Char) (cwd localDir p : String) : List Char :=
  joinSep [sep] ((relParts sep cwd localDir p).map String.toList)

/-- `localPathToKey` (watcher.js lines 43-47): the relative path from the
resolved `localDir` to the resolved `p`, with every occurrence of the OS
separator rewritten to `/` (`rel.split(path.sep).join("/")`). -/
def localPathToKey (sep : Char) (cwd localDir p : String) : String :=
  String.mk (joinSep ['/'] (splitChars sep (relativeChars sep cwd localDir p)))

end Watcher

namespace Watcher

/-! ### Lemmas about splitting and joining -/

theorem splitChars_ne_nil (sep : Char) (l : List Char) :
    splitChars sep l ≠ [] := by
  induction l with
  | nil => simp [splitChars]
  | cons c cs ih =>
    cases h : splitChars sep cs with
    | nil => exact absurd h ih
    | cons g gs =>
      simp only [splitChars, h]
      split <;> simp

theorem not_mem_of_mem_splitChars (sep : Char) (l : List Char) :
    ∀ p ∈ splitChars sep l, sep ∉ p := by
  induction l with
  | nil =>
    intro p hp
    simp [splitChars] at hp
    simp [hp]
  | cons c cs ih =>
    intro p hp
    cases h : splitChars sep cs with
    | nil => exact absurd h (splitChars_ne_nil sep cs)
    | cons g gs =>
      simp only [splitChars, h] at hp
      by_cases hc : c = sep
      · simp only [if_pos hc] at hp
        rcases List.mem_cons.mp hp with hp | hp
        · simp [hp]
        · exact ih p (h ▸ hp)
      · simp only [if_neg hc] at hp
        rcases List.mem_cons.mp hp with hp | hp
        · subst hp
          intro hmem
          rcases List.mem_cons.mp hmem with h1 | h1
          · exact hc h1.symm
          · exact ih g (h ▸ List.mem_cons_self g gs) h1
        · exact ih p (h ▸ List.mem_cons_of_mem g hp)

theorem isPrefixOf_false_dropCommon_ne_nil :
    ∀ f t : List String, f.isPrefixOf t = false → (dropCommon f t).1 ≠ [] := by
  intro f
  induction f with
  | nil => intro t h; simp [List.isPrefixOf] at h
  | cons a as ih =>
    intro t h
    cases t with
    | nil => simp [dropCommon]
    | cons b bs =>
      by_cases hab : a = b
      · subst hab
        simp only [List.isPrefixOf, beq_self_eq_true, Bool.true_and] at h
        simpa [dropCommon] using ih bs h
      · simp [dropCommon, hab]

theorem mem_joinSep (x : List Char) (ps : List (List Char)) (c : Char) :
    c ∈ joinSep x ps → c ∈ x ∨ ∃ p ∈ ps, c ∈ p := by
  induction ps with
  | nil => intro h; simp [joinSep] at h
  | cons p qs ih =>
    cases qs with
    | nil =>
      intro h
      simp only [joinSep] at h
      exact Or.inr ⟨p, List.mem_singleton_self p, h⟩
    | cons q rs =>
      intro h
      simp only [joinSep, List.mem_append] at h
      rcases h with (h | h) | h
      · exact Or.inr ⟨p, List.mem_cons_self p _, h⟩
      · exact Or.inl h
      · rcases ih h with h1 | ⟨r, hr, hc⟩
        · exact Or.inl h1
        · exact Or.inr ⟨r, List.mem_cons_of_mem p hr, hc⟩

/-- The characters of a `localPathToKey` result. -/
theorem toList_localPathToKey (sep : Char) (cwd localDir p : String) :
    (localPathToKey sep cwd localDir p).toList =
      joinSep ['/'] (splitChars sep (relativeChars sep cwd localDir p)) := rfl

/-- C4 — Key mapping is deterministic and separator-normalized: `toKey`
(`localPathToKey`) gives the same RemoteKey to any two LocalPaths that
resolve to the same absolute path, its result never contains the OS path
separator when that separator is not `/` (every separator is rewritten to
`/`), and for root `./pdf` the file `./pdf/sub/doc.pdf` maps to key
`sub/doc.pdf`. -/
theorem localPathToKey_deterministic_and_normalized
    (sep : Char) (cwd localDir p1 p2 : String)
    (heq : resolveComps sep cwd p1 = resolveComps sep cwd p2)
    (hsep : sep ≠ '/') :
    localPathToKey sep cwd localDir p1 = localPathToKey sep cwd localDir p2 ∧
    sep ∉ (localPathToKey sep cwd localDir p1).toList ∧
    localPathToKey '/' "/home/user" "./pdf" "./pdf/sub/doc.pdf" = "sub/doc.pdf" := by
  refine ⟨?_, ?_, by decide⟩
  · unfold localPathToKey relativeChars relParts
    rw [heq]
  · rw [toList_localPathToKey]
    intro hmem
    rcases mem_joinSep ['/']
        (splitChars sep (relativeChars sep cwd localDir p1)) sep hmem with h | ⟨q, hq, hcq⟩
    · exact hsep (List.mem_singleton.mp h)
    · exact not_mem_of_mem_splitChars sep _ q hq hcq

/-- Witness for C4: on a Windows-style separator `\`, two spellings of the
same file produce the same key, and the key carries no backslash. -/
theorem localPathToKey_deterministic_and_normalized_witness :
    localPathToKey '\\' "C:\\home" ".\\pdf" ".\\pdf\\sub\\doc.pdf" =
      localPathToKey '\\' "C:\\home" ".\\pdf" "pdf\\sub\\.\\doc.pdf" ∧
    '\\' ∉ (localPathToKey '\\' "C:\\home" ".\\pdf" ".\\pdf\\sub\\doc.pdf").toList ∧
    localPathToKey '/' "/home/user" "./pdf" "./pdf/sub/doc.pdf" = "sub/doc.pdf" :=
  localPathToKey_deterministic_and_normalized '\\' "C:\\home" ".\\pdf"
    ".\\pdf\\sub\\doc.pdf" "pdf\\sub\\.\\doc.pdf" (by decide) (by decide)

/-- C5 counterexample — `localPathToKey` does not fail fast on an input
outside the root: for root `./pdf` and the out-of-root path `./other/x.pdf`
it silently returns the mis-mapped key `../other/x.pdf` instead of raising
an error (the embedding is a total function with no error case, mirroring
watcher.js lines 43-47, which perform no containment check). -/
theorem localPathToKey_out_of_root_returns_key :
    localPathToKey '/' "/home/user" "./pdf" "./other/x.pdf" = "../other/x.pdf" := by
  decide

/-- C5 (amended) — the key mapper never raises on out-of-root inputs:
whenever the resolved root is not a prefix of the resolved path, the
relative-path computation still returns normally and its first component is
`".."`, i.e. the key silently escapes the root. -/
theorem localPathToKey_out_of_root_silent
    (sep : Char) (cwd localDir p : String)
    (h : (resolveComps sep cwd localDir).isPrefixOf (resolveComps sep cwd p) = false) :
    (relParts sep cwd localDir p).head? = some ".." := by
  have hne := isPrefixOf_false_dropCommon_ne_nil
    (resolveComps sep cwd localDir) (resolveComps sep cwd p) h
  unfold relParts
  cases hd : (dropCommon (resolveComps sep cwd localDir) (resolveComps sep cwd p)).1 with
  | nil => exact absurd hd hne
  | cons a as => simp [hd, List.replicate_succ]

/-- Witness for C5 (amended): the out-of-root input `./other/x.pdf` under
root `./pdf` yields a relative key whose first component is `".."`. -/
theorem localPathToKey_out_of_root_silent_witness :
    (relParts '/' "/home/user" "./pdf" "./other/x.pdf").head? = some ".." :=
  localPathToKey_out_of_root_silent '/' "/home/user" "./pdf" "./other/x.pdf" (by decide)

/-! ## Reconciliation Walker: `initialSync`'s `walk` (watcher.js lines 108-130)

`walk(dir)` calls `fs.promises.readdir(dir)` with no error handling (a
rejection propagates to the caller), recurses into directory entries, and
pushes a file entry `full = path.join(dir, ent.name)` onto `files` when
`path.extname(ent.name).toLowerCase() === ".pdf"`.  The filesystem is
modelled as a tree; a directory whose `readdir` rejects carries `none` for
its entries. -/

/-- The index of the last `'.'` in a character list, if any. -/
def lastDotPos (cs : List Char) : Option Nat :=
  match List.findIdx? (fun c => c = '.') cs.reverse with
  | none => none
  | some j => some (cs.length - 1 - j)

/-- Node `path.extname` on a plain entry name (no directory part): the
suffix from the last `'.'`, except that a name whose only `'.'` is its first
character (a dotfile) has no extension. -/
def extname (s : String) : String :=
  match lastDotPos s.toList with
  | none => ""
  | some 0 => ""
  | some i => String.mk (s.toList.drop i)

/-- ASCII lowercasing of one character (the fragment of JS `toLowerCase`
relevant to extension comparison). -/
def lowerChar (c : Char) : Char :=
  if 'A' ≤ c ∧ c ≤ 'Z' then Char.ofNat (c.toNat + 32) else c

/-- ASCII lowercasing of a string. -/
def lowerStr (s : String) : String := String.mk (s.toList.map lowerChar)

/-- The walker's eligibility test (watcher.js lines 119-120):
`path.extname(ent.name).toLowerCase() === ".pdf"`. -/
def eligiblePdf (name : String) : Bool :=
  lowerStr (extname name) == ".pdf"

/-- The configuration surface of the program (watcher.js lines 14-21): the
environment variables it reads. -/
structure Config where
  r2Endpoint : String
  bucket : String
  accessKey : String
  secretKey : String
  localDir : String
  concurrency : Nat
  retryLimit : Nat
  debounceMs : Nat

/-- The walker's eligibility test as a function of the whole configuration
surface.  The source hardcodes `".pdf"` (line 120); no field of the
configuration is consulted, so the filter is constant in `cfg`. -/
def walkFilterUnder (_cfg : Config) (name : String) : Bool :=
  eligiblePdf name

/-- A modelled filesystem tree.  A `dir` with `none` entries is a directory
whose `readdir` rejects (e.g. `EACCES`); `other` is an entry that is neither
a regular file nor a directory (skipped by the walker). -/
inductive FsTree where
  | file (name : String)
  | other (name : String)
  | dir (name : String) (entries : Option (List FsTree))

/-- `path.join(dir, name)` for the forward-slash convention used by the
walker's accumulated paths. -/
def pathJoin (d name : String) : String := d ++ "/" ++ name

mutual

/-- One entry of the `for (const ent of entries)` loop of `walk`
(watcher.js lines 113-122): a directory entry recurses (a `readdir`
rejection propagates — there is no `try`/`catch` in `walk`), a file entry
contributes `full` when eligible, anything else is skipped. -/
def walkEnt (parent : String) : FsTree → Except String (List String)
  | .file name =>
      .ok (if eligiblePdf name then [pathJoin parent name] else [])
  | .other _ => .ok []
  | .dir name none => .error (pathJoin parent name)
  | .dir name (some entries) => walkList (pathJoin parent name) entries

/-- The entry loop of `walk` over a directory's entry list, in order; the
first error aborts the loop and propagates. -/
def walkList (parent : String) : List FsTree → Except String (List String)
  | [] => .ok []
  | e :: es => do
      let a ← walkEnt parent e
      let b ← walkList parent es
      pure (a ++ b)

end

/-- `await walk(LOCAL_DIR)` (watcher.js line 124): the walk of the root
directory itself; a rejected `readdir` of the root propagates. -/
def walkRoot (localDir : String) (root : Option (List FsTree)) :
    Except String (List String) :=
  match root with
  | none => .error localDir
  | some entries => walkList localDir entries

mutual

/-- Does the tree contain a directory whose `readdir` fails? -/
def hasBadDir : FsTree → Bool
  | .file _ => false
  | .other _ => false
  | .dir _ none => true
  | .dir _ (some entries) => hasBadList entries

/-- `hasBadDir` over a list of entries. -/
def hasBadList : List FsTree → Bool
  | [] => false
  | e :: es => hasBadDir e || hasBadList es

end

mutual

/-- The eligible regular files of a tree, with their joined paths, in walk
order (the reference for what a full walk should produce). -/
def pdfFilesEnt (parent : String) : FsTree → List String
  | .file name => if eligiblePdf name then [pathJoin parent name] else []
  | .other _ => []
  | .dir _ none => []
  | .dir name (some entries) => pdfFilesList (pathJoin parent name) entries

/-- `pdfFilesEnt` over a list of entries. -/
def pdfFilesList (parent : String) : List FsTree → List String
  | [] => []
  | e :: es => pdfFilesEnt parent e ++ pdfFilesList parent es

end

/-- On a tree with no unreadable directory, the walk succeeds and returns
exactly the eligible files (joint statement for trees and entry lists,
proved by strong induction on size). -/
theorem walk_ok_of_no_bad (n : Nat) :
    (∀ (parent : String) (t : FsTree), sizeOf t < n → hasBadDir t = false →
      walkEnt parent t = .ok (pdfFilesEnt parent t)) ∧
    (∀ (parent : String) (l : List FsTree), sizeOf l < n → hasBadList l = false →
      walkList parent l = .ok (pdfFilesList parent l)) := by
  induction n with
  | zero =>
    exact ⟨fun _ t h => absurd h (Nat.not_lt_zero _),
           fun _ l h => absurd h (Nat.not_lt_zero _)⟩
  | succ n ih =>
    constructor
    · intro parent t ht hbad
      cases t with
      | file name => simp [walkEnt, pdfFilesEnt]
      | other name => simp [walkEnt, pdfFilesEnt]
      | dir name entries =>
        cases entries with
        | none => simp [hasBadDir] at hbad
        | some l =>
          simp only [hasBadDir] at hbad
          have hsz : sizeOf l < n := by
            have := @FsTree.dir.sizeOf_spec name (some l)
            have := @Option.some.sizeOf_spec (List FsTree) _ l
            omega
          simp only [walkEnt, pdfFilesEnt]
          exact ih.2 (pathJoin parent name) l hsz hbad
    · intro parent l hl hbad
      cases l with
      | nil => simp [walkList, pdfFilesList]
      | cons e es =>
        simp only [hasBadList, Bool.or_eq_false_iff] at hbad
        have hsze : sizeOf e < n := by
          have := @List.cons.sizeOf_spec FsTree _ e es
          omega
        have hszes : sizeOf es < n := by
          have := @List.cons.sizeOf_spec FsTree _ e es
          omega
        simp only [walkList, pdfFilesList,
          ih.1 parent e hsze hbad.1, ih.2 parent es hszes hbad.2]
        rfl

/-- A `readdir` failure in an entry makes the whole entry loop fail: if
every entry of `pre` walks successfully and then an unreadable directory is
met, `walkList` returns that directory's error — the remaining entries are
never produced. -/
theorem walkList_error_of_unreadable (parent name : String) (post : List FsTree) :
    ∀ pre : List FsTree, (∀ e ∈ pre, (walkEnt parent e).isOk = true) →
      walkList parent (pre ++ FsTree.dir name none :: post) =
        .error (pathJoin parent name) := by
  intro pre
  induction pre with
  | nil => intro _; rfl
  | cons p ps ih =>
    intro hpre
    have hp := hpre p (List.mem_cons_self p ps)
    cases hw : walkEnt parent p with
    | error e => rw [hw] at hp; simp [Except.isOk, Except.toBool] at hp
    | ok a =>
      have hrest := ih fun e he => hpre e (List.mem_cons_of_mem p he)
      have hstep : walkList parent ((p :: ps) ++ FsTree.dir name none :: post) =
          walkEnt parent p >>= fun x =>
            walkList parent (ps ++ FsTree.dir name none :: post) >>= fun y =>
              pure (x ++ y) := rfl
      rw [hstep, hw]
      simp only [hrest]
      rfl

/-- C6 counterexample — the walker does not skip an unreadable subtree: for
a root whose first entry is an unreadable directory and whose second entry
is the eligible file `a.pdf`, the whole walk aborts with the subdirectory's
error and produces no files, although the eligible sibling `./pdf/a.pdf`
exists outside the unreadable subtree (watcher.js lines 111-124 have no
`try`/`catch` around `readdir`). -/
theorem walk_aborts_on_unreadable_subdir :
    walkRoot "./pdf" (some [FsTree.dir "secret" none, FsTree.file "a.pdf"]) =
      .error "./pdf/secret" ∧
    pdfFilesList "./pdf" [FsTree.dir "secret" none, FsTree.file "a.pdf"] =
      ["./pdf/a.pdf"] := by
  exact ⟨rfl, rfl⟩

/-- C6 (amended) — a read error on one subdirectory aborts the whole walk:
when the entries before the unreadable directory all walk successfully, the
entry loop returns the unreadable directory's error, so sibling directories
after it are never walked and no file list is produced. -/
theorem walk_error_aborts_siblings (parent name : String) (pre post : List FsTree)
    (hpre : ∀ e ∈ pre, (walkEnt parent e).isOk = true) :
    walkList parent (pre ++ FsTree.dir name none :: post) =
      .error (pathJoin parent name) :=
  walkList_error_of_unreadable parent name post pre hpre

/-- Witness for C6 (amended): with one successful file entry before the
unreadable directory `secret` and one entry after it, the walk returns the
error for `./pdf/secret`. -/
theorem walk_error_aborts_siblings_witness :
    walkList "./pdf" ([FsTree.file "a.pdf"] ++
        FsTree.dir "secret" none :: [FsTree.file "b.pdf"]) =
      .error "./pdf/secret" :=
  walk_error_aborts_siblings "./pdf" "secret" [FsTree.file "a.pdf"]
    [FsTree.file "b.pdf"] (by decide)

/-- C7 counterexample — the eligibility filter is not configurable: no value
of the program's whole configuration surface makes the walker accept the
regular file `doc.txt`; the extension test consults no configuration field
(watcher.js line 120 hardcodes `".pdf"`). -/
theorem walk_filter_not_configurable :
    ¬ ∃ cfg : Config, walkFilterUnder cfg "doc.txt" = true := by
  rintro ⟨cfg, h⟩
  simp only [walkFilterUnder] at h
  exact absurd h (by decide)

/-- C7 (amended) — the filter is hardcoded, and with that fixed filter the
walk is exact: under every configuration the eligibility test is the
constant `".pdf"` test, and on any tree with no unreadable directory the
walk produces exactly the regular files whose lowercased extension is
`.pdf`. -/
theorem walk_filter_hardcoded_pdf :
    (∀ (cfg : Config) (name : String), walkFilterUnder cfg name = eligiblePdf name) ∧
    (∀ (parent : String) (t : FsTree), hasBadDir t = false →
      walkEnt parent t = .ok (pdfFilesEnt parent t)) := by
  refine ⟨fun _ _ => rfl, fun parent t h => ?_⟩
  exact (walk_ok_of_no_bad (sizeOf t + 1)).1 parent t (Nat.lt_succ_self _) h

/-- Witness for C7 (amended): a concrete configuration and a concrete
readable tree, on which the walk returns exactly the `.pdf` files. -/
theorem walk_filter_hardcoded_pdf_witness :
    walkFilterUnder ⟨"ep", "bkt", "ak", "sk", "./pdf", 4, 3, 500⟩ "doc.txt" =
      eligiblePdf "doc.txt" ∧
    walkEnt "." (FsTree.dir "pdf" (some [FsTree.file "x.PDF", FsTree.file "y.md"])) =
      .ok (pdfFilesEnt "." (FsTree.dir "pdf" (some [FsTree.file "x.PDF", FsTree.file "y.md"]))) :=
  ⟨walk_filter_hardcoded_pdf.1 ⟨"ep", "bkt", "ak", "sk", "./pdf", 4, 3, 500⟩ "doc.txt",
   walk_filter_hardcoded_pdf.2 "." _ (by decide)⟩

/-- C10 — the walker's extension test is case-insensitive: a regular file is
selected if and only if its extension, ASCII-lowercased, equals `".pdf"`;
concretely a directory holding `A.PDF`, `b.Pdf`, `c.pdf`, `d.txt`, a dotfile
`.pdf` (whose extension is empty) and a subdirectory with `E.PdF` yields
exactly the four mixed-case `.pdf` files. -/
theorem walk_extension_case_insensitive :
    (∀ name : String, eligiblePdf name = true ↔ lowerStr (extname name) = ".pdf") ∧
    walkRoot "./pdf" (some [FsTree.file "A.PDF", FsTree.file "b.Pdf",
        FsTree.file "c.pdf", FsTree.file "d.txt", FsTree.file ".pdf",
        FsTree.dir "sub" (some [FsTree.file "E.PdF"])]) =
      .ok ["./pdf/A.PDF", "./pdf/b.Pdf", "./pdf/c.pdf", "./pdf/sub/E.PdF"] := by
  constructor
  · intro name
    simp [eligiblePdf]
  · rfl

/-! ## Retrying Operation Executor: `uploadFile` / `deleteKey`
(watcher.js lines 49-97)

Both functions wrap their whole body in `try`/`catch`; on a caught error,
if `attempt < RETRY_LIMIT` they wait `200 * 2 ** attempt` ms and tail-call
themselves with `attempt + 1` (a rejection of that call would propagate —
the recursive call is not inside the `catch`'s own protection), otherwise
they log the failure as terminal and return.  The fallible body (file read,
content-type lookup and the remote `send`, all external collaborators) is
modelled as a per-attempt oracle `body : Nat → Except String Unit`.  The
returned trace records how many times the body ran, the backoff waits in
order, the terminal outcome and the log lines. -/

/-- Terminal outcome of one executor invocation chain. -/
inductive OpOutcome where
  | success
  | abandoned
deriving DecidableEq

/-- The log lines the executor emits (watcher.js lines 64, 66, 69, 73, 86,
88, 94). -/
inductive LogLine where
  | uploaded (key : String)
  | uploadErrorLog (key : String) (attempt : Nat)
  | retryingLog (key : String) (backoffMs : Nat)
  | uploadFailedLog (key : String) (retryLimit : Nat)
  | deleted (key : String)
  | deleteErrorLog (key : String) (attempt : Nat)
  | deleteFailedLog (key : String) (retryLimit : Nat)
deriving DecidableEq

/-- Observable trace of one executor invocation chain. -/
structure ExecTrace where
  attempts : Nat
  waits : List Nat
  outcome : OpOutcome
  logs : List LogLine
deriving DecidableEq

/-- `uploadFile(localPath, attempt)` (watcher.js lines 49-76).  The result
is `Except` because a rejection of the recursive call in the `catch` branch
would propagate to the caller; the theorems show this never happens. -/
def uploadFileE (retryLimit : Nat) (key : String) (body : Nat → Except String Unit)
    (attempt : Nat) : Except String ExecTrace :=
  match body attempt with
  | .ok _ => .ok ⟨1, [], .success, [.uploaded key]⟩
  | .error _ =>
    if _h : attempt < retryLimit then
      match uploadFileE retryLimit key body (attempt + 1) with
      | .ok r => .ok ⟨r.attempts + 1, 200 * 2 ^ attempt :: r.waits, r.outcome,
          .uploadErrorLog key attempt :: .retryingLog key (200 * 2 ^ attempt) :: r.logs⟩
      | .error e => .error e
    else .ok ⟨1, [], .abandoned,
      [.uploadErrorLog key attempt, .uploadFailedLog key retryLimit]⟩
termination_by retryLimit - attempt
decreasing_by omega

/-- `deleteKey(localPath, attempt)` (watcher.js lines 78-97): same retry
shape as `uploadFile`, without the `Retrying … in …ms` log line. -/
def deleteKeyE (retryLimit : Nat) (key : String) (body : Nat → Except String Unit)
    (attempt : Nat) : Except String ExecTrace :=
  match body attempt with
  | .ok _ => .ok ⟨1, [], .success, [.deleted key]⟩
  | .error _ =>
    if _h : attempt < retryLimit then
      match deleteKeyE retryLimit key body (attempt + 1) with
      | .ok r => .ok ⟨r.attempts + 1, 200 * 2 ^ attempt :: r.waits, r.outcome,
          .deleteErrorLog key attempt :: r.logs⟩
      | .error e => .error e
    else .ok ⟨1, [], .abandoned,
      [.deleteErrorLog key attempt, .deleteFailedLog key retryLimit]⟩
termination_by retryLimit - attempt
decreasing_by omega

/-- The upload log lines produced when every attempt fails. -/
def allFailLogsU (retryLimit : Nat) (key : String) (attempt : Nat) : List LogLine :=
  if attempt < retryLimit then
    .uploadErrorLog key attempt :: .retryingLog key (200 * 2 ^ attempt) ::
      allFailLogsU retryLimit key (attempt + 1)
  else [.uploadErrorLog key attempt, .uploadFailedLog key retryLimit]
termination_by retryLimit - attempt
decreasing_by omega

/-- The delete log lines produced when every attempt fails. -/
def allFailLogsD (retryLimit : Nat) (key : String) (attempt : Nat) : List LogLine :=
  if attempt < retryLimit then
    .deleteErrorLog key attempt :: allFailLogsD retryLimit key (attempt + 1)
  else [.deleteErrorLog key attempt, .deleteFailedLog key retryLimit]
termination_by retryLimit - attempt
decreasing_by omega

theorem uploadFileE_isOk (retryLimit : Nat) (key : String)
    (body : Nat → Except String Unit) :
    ∀ attempt, (uploadFileE retryLimit key body attempt).isOk = true := by
  have H : ∀ k attempt, retryLimit - attempt ≤ k →
      (uploadFileE retryLimit key body attempt).isOk = true := by
    intro k
    induction k with
    | zero =>
      intro attempt hle
      rw [uploadFileE]
      cases hb : body attempt with
      | ok u => simp [Except.isOk, Except.toBool]
      | error e =>
        have hnlt : ¬ attempt < retryLimit := by omega
        simp [hnlt, Except.isOk, Except.toBool]
    | succ k ih =>
      intro attempt hle
      rw [uploadFileE]
      cases hb : body attempt with
      | ok u => simp [Except.isOk, Except.toBool]
      | error e =>
        by_cases hlt : attempt < retryLimit
        · have hrec := ih (attempt + 1) (by omega)
          cases hr : uploadFileE retryLimit key body (attempt + 1) with
          | ok r => simp [hlt, hr, Except.isOk, Except.toBool]
          | error e2 => rw [hr] at hrec; simp [Except.isOk, Except.toBool] at hrec
        · simp [hlt, Except.isOk, Except.toBool]
  intro attempt
  exact H (retryLimit - attempt) attempt le_rfl

theorem deleteKeyE_isOk (retryLimit : Nat) (key : String)
    (body : Nat → Except String Unit) :
    ∀ attempt, (deleteKeyE retryLimit key body attempt).isOk = true := by
  have H : ∀ k attempt, retryLimit - attempt ≤ k →
      (deleteKeyE retryLimit key body attempt).isOk = true := by
    intro k
    induction k with
    | zero =>
      intro attempt hle
      rw [deleteKeyE]
      cases hb : body attempt with
      | ok u => simp [Except.isOk, Except.toBool]
      | error e =>
        have hnlt : ¬ attempt < retryLimit := by omega
        simp [hnlt, Except.isOk, Except.toBool]
    | succ k ih =>
      intro attempt hle
      rw [deleteKeyE]
      cases hb : body attempt with
      | ok u => simp [Except.isOk, Except.toBool]
      | error e =>
        by_cases hlt : attempt < retryLimit
        · have hrec := ih (attempt + 1) (by omega)
          cases hr : deleteKeyE retryLimit key body (attempt + 1) with
          | ok r => simp [hlt, hr, Except.isOk, Except.toBool]
          | error e2 => rw [hr] at hrec; simp [Except.isOk, Except.toBool] at hrec
        · simp [hlt, Except.isOk, Except.toBool]
  intro attempt
  exact H (retryLimit - attempt) attempt le_rfl

/-- Closed form of `uploadFileE` when the body fails at every attempt. -/
theorem uploadFileE_allFail (retryLimit : Nat) (key : String)
    (body : Nat → Except String Unit) (hfail : ∀ n, (body n).isOk = false) :
    ∀ attempt, uploadFileE retryLimit key body attempt =
      .ok ⟨retryLimit - attempt + 1,
           (List.range' attempt (retryLimit - attempt)).map (fun i => 200 * 2 ^ i),
           .abandoned, allFailLogsU retryLimit key attempt⟩ := by
  have H : ∀ k attempt, retryLimit - attempt ≤ k →
      uploadFileE retryLimit key body attempt =
        .ok ⟨retryLimit - attempt + 1,
             (List.range' attempt (retryLimit - attempt)).map (fun i => 200 * 2 ^ i),
             .abandoned, allFailLogsU retryLimit key attempt⟩ := by
    intro k
    induction k with
    | zero =>
      intro attempt hle
      have hz : retryLimit - attempt = 0 := by omega
      have hnlt : ¬ attempt < retryLimit := by omega
      rw [uploadFileE]
      cases hb : body attempt with
      | ok u => have := hfail attempt; rw [hb] at this; simp [Except.isOk, Except.toBool] at this
      | error e =>
        rw [allFailLogsU]
        simp [hnlt, hz]
    | succ k ih =>
      intro attempt hle
      rw [uploadFileE]
      cases hb : body attempt with
      | ok u => have := hfail attempt; rw [hb] at this; simp [Except.isOk, Except.toBool] at this
      | error e =>
        by_cases hlt : attempt < retryLimit
        · have h1 : retryLimit - attempt = (retryLimit - (attempt + 1)) + 1 := by omega
          rw [ih (attempt + 1) (by omega)]
          conv_rhs => rw [allFailLogsU]
          simp only [hlt, dif_pos, if_pos]
          rw [h1, List.range'_succ]
          simp
        · have hz : retryLimit - attempt = 0 := by omega
          rw [allFailLogsU]
          simp [hlt, hz]
  intro attempt
  exact H (retryLimit - attempt) attempt le_rfl

/-- Closed form of `deleteKeyE` when the body fails at every attempt. -/
theorem deleteKeyE_allFail (retryLimit : Nat) (key : String)
    (body : Nat → Except String Unit) (hfail : ∀ n, (body n).isOk = false) :
    ∀ attempt, deleteKeyE retryLimit key body attempt =
      .ok ⟨retryLimit - attempt + 1,
           (List.range' attempt (retryLimit - attempt)).map (fun i => 200 * 2 ^ i),
           .abandoned, allFailLogsD retryLimit key attempt⟩ := by
  have H : ∀ k attempt, retryLimit - attempt ≤ k →
      deleteKeyE retryLimit key body attempt =
        .ok ⟨retryLimit - attempt + 1,
             (List.range' attempt (retryLimit - attempt)).map (fun i => 200 * 2 ^ i),
             .abandoned, allFailLogsD retryLimit key attempt⟩ := by
    intro k
    induction k with
    | zero =>
      intro attempt hle
      have hz : retryLimit - attempt = 0 := by omega
      have hnlt : ¬ attempt < retryLimit := by omega
      rw [deleteKeyE]
      cases hb : body attempt with
      | ok u => have := hfail attempt; rw [hb] at this; simp [Except.isOk, Except.toBool] at this
      | error e =>
        rw [allFailLogsD]
        simp [hnlt, hz]
    | succ k ih =>
      intro attempt hle
      rw [deleteKeyE]
      cases hb : body attempt with
      | ok u => have := hfail attempt; rw [hb] at this; simp [Except.isOk, Except.toBool] at this
      | error e =>
        by_cases hlt : attempt < retryLimit
        · have h1 : retryLimit - attempt = (retryLimit - (attempt + 1)) + 1 := by omega
          rw [ih (attempt + 1) (by omega)]
          conv_rhs => rw [allFailLogsD]
          simp only [hlt, dif_pos, if_pos]
          rw [h1, List.range'_succ]
          simp
        · have hz : retryLimit - attempt = 0 := by omega
          rw [allFailLogsD]
          simp [hlt, hz]
  intro attempt
  exact H (retryLimit - attempt) attempt le_rfl

theorem uploadFailedLog_mem_allFailLogsU (retryLimit : Nat) (key : String) :
    ∀ attempt, LogLine.uploadFailedLog key retryLimit ∈ allFailLogsU retryLimit key attempt := by
  have H : ∀ k attempt, retryLimit - attempt ≤ k →
      LogLine.uploadFailedLog key retryLimit ∈ allFailLogsU retryLimit key attempt := by
    intro k
    induction k with
    | zero =>
      intro attempt hle
      have hnlt : ¬ attempt < retryLimit := by omega
      rw [allFailLogsU]
      simp [hnlt]
    | succ k ih =>
      intro attempt hle
      rw [allFailLogsU]
      by_cases hlt : attempt < retryLimit
      · simp only [hlt, if_pos]
        exact List.mem_cons_of_mem _ (List.mem_cons_of_mem _ (ih (attempt + 1) (by omega)))
      · simp [hlt]
  intro attempt
  exact H (retryLimit - attempt) attempt le_rfl

theorem deleteFailedLog_mem_allFailLogsD (retryLimit : Nat) (key : String) :
    ∀ attempt, LogLine.deleteFailedLog key retryLimit ∈ allFailLogsD retryLimit key attempt := by
  have H : ∀ k attempt, retryLimit - attempt ≤ k →
      LogLine.deleteFailedLog key retryLimit ∈ allFailLogsD retryLimit key attempt := by
    intro k
    induction k with
    | zero =>
      intro attempt hle
      have hnlt : ¬ attempt < retryLimit := by omega
      rw [allFailLogsD]
      simp [hnlt]
    | succ k ih =>
      intro attempt hle
      rw [allFailLogsD]
      by_cases hlt : attempt < retryLimit
      · simp only [hlt, if_pos]
        exact List.mem_cons_of_mem _ (ih (attempt + 1) (by omega))
      · simp [hlt]
  intro attempt
  exact H (retryLimit - attempt) attempt le_rfl

/-- C2 — Retry policy of the executor: with `attempt` starting at 1 (the
source's default argument) and a body (file read / remote call) that fails
on every attempt, both `uploadFile` and `deleteKey` execute the body exactly
`RETRY_LIMIT` times, wait `200 * 2 ^ attempt` ms between consecutive
attempts (so 400ms then 800ms for `RETRY_LIMIT = 3`), and end abandoned. -/
theorem executor_retry_policy (retryLimit : Nat) (key : String)
    (ubody dbody : Nat → Except String Unit)
    (hR : 1 ≤ retryLimit)
    (hu : ∀ n, (ubody n).isOk = false) (hd : ∀ n, (dbody n).isOk = false) :
    (∃ r, uploadFileE retryLimit key ubody 1 = .ok r ∧
      r.attempts = retryLimit ∧
      r.waits = (List.range' 1 (retryLimit - 1)).map (fun i => 200 * 2 ^ i) ∧
      r.outcome = .abandoned ∧
      (retryLimit = 3 → r.waits = [400, 800])) ∧
    (∃ r, deleteKeyE retryLimit key dbody 1 = .ok r ∧
      r.attempts = retryLimit ∧
      r.waits = (List.range' 1 (retryLimit - 1)).map (fun i => 200 * 2 ^ i) ∧
      r.outcome = .abandoned ∧
      (retryLimit = 3 → r.waits = [400, 800])) := by
  constructor
  · refine ⟨_, uploadFileE_allFail retryLimit key ubody hu 1, ?_, rfl, rfl, ?_⟩
    · show retryLimit - 1 + 1 = retryLimit
      omega
    · intro h3
      subst h3
      show (List.range' 1 (3 - 1)).map (fun i => 200 * 2 ^ i) = [400, 800]
      decide
  · refine ⟨_, deleteKeyE_allFail retryLimit key dbody hd 1, ?_, rfl, rfl, ?_⟩
    · show retryLimit - 1 + 1 = retryLimit
      omega
    · intro h3
      subst h3
      show (List.range' 1 (3 - 1)).map (fun i => 200 * 2 ^ i) = [400, 800]
      decide

/-- Witness for C2: `RETRY_LIMIT = 3` and bodies that always fail give three
attempts, waits 400ms and 800ms, and abandonment, for both operations. -/
theorem executor_retry_policy_witness :
    (∃ r, uploadFileE 3 "a.pdf" (fun _ => Except.error "net") 1 = .ok r ∧
      r.attempts = 3 ∧
      r.waits = (List.range' 1 (3 - 1)).map (fun i => 200 * 2 ^ i) ∧
      r.outcome = .abandoned ∧
      (3 = 3 → r.waits = [400, 800])) ∧
    (∃ r, deleteKeyE 3 "a.pdf" (fun _ => Except.error "net") 1 = .ok r ∧
      r.attempts = 3 ∧
      r.waits = (List.range' 1 (3 - 1)).map (fun i => 200 * 2 ^ i) ∧
      r.outcome = .abandoned ∧
      (3 = 3 → r.waits = [400, 800])) :=
  executor_retry_policy 3 "a.pdf" (fun _ => Except.error "net")
    (fun _ => Except.error "net") (by omega) (fun _ => rfl) (fun _ => rfl)

/-- C3 — Error containment of the executor: for every retry limit, body
behaviour and starting attempt, `uploadFile` and `deleteKey` return normally
(`.ok`, never a propagated exception), and when every attempt fails the
returned trace contains the terminal `[FAILED] … after RETRY_LIMIT attempts`
log line for that key. -/
theorem executor_error_containment (retryLimit : Nat) (key : String)
    (ubody dbody : Nat → Except String Unit) (attempt : Nat) :
    (uploadFileE retryLimit key ubody attempt).isOk = true ∧
    (deleteKeyE retryLimit key dbody attempt).isOk = true ∧
    ((∀ n, (ubody n).isOk = false) →
      ∃ r, uploadFileE retryLimit key ubody 1 = .ok r ∧
        LogLine.uploadFailedLog key retryLimit ∈ r.logs) ∧
    ((∀ n, (dbody n).isOk = false) →
      ∃ r, deleteKeyE retryLimit key dbody 1 = .ok r ∧
        LogLine.deleteFailedLog key retryLimit ∈ r.logs) := by
  refine ⟨uploadFileE_isOk retryLimit key ubody attempt,
          deleteKeyE_isOk retryLimit key dbody attempt, ?_, ?_⟩
  · intro hu
    exact ⟨_, uploadFileE_allFail retryLimit key ubody hu 1,
      uploadFailedLog_mem_allFailLogsU retryLimit key 1⟩
  · intro hd
    exact ⟨_, deleteKeyE_allFail retryLimit key dbody hd 1,
      deleteFailedLog_mem_allFailLogsD retryLimit key 1⟩

/-- Witness for C3: concrete retry limit, key and always-failing bodies. -/
theorem executor_error_containment_witness :
    (uploadFileE 3 "k.pdf" (fun _ => Except.error "x") 1).isOk = true ∧
    (deleteKeyE 3 "k.pdf" (fun _ => Except.error "x") 1).isOk = true ∧
    ((∀ n, ((fun _ => Except.error "x" : Nat → Except String Unit) n).isOk = false) →
      ∃ r, uploadFileE 3 "k.pdf" (fun _ => Except.error "x") 1 = .ok r ∧
        LogLine.uploadFailedLog "k.pdf" 3 ∈ r.logs) ∧
    ((∀ n, ((fun _ => Except.error "x" : Nat → Except String Unit) n).isOk = false) →
      ∃ r, deleteKeyE 3 "k.pdf" (fun _ => Except.error "x") 1 = .ok r ∧
        LogLine.deleteFailedLog "k.pdf" 3 ∈ r.logs) :=
  executor_error_containment 3 "k.pdf" (fun _ => Except.error "x")
    (fun _ => Except.error "x") 1

/-! ## Event Debouncer: `scheduleOp` (watcher.js lines 146-161)

`scheduleOp(type, filePath)` computes `key = localPathToKey(filePath)`,
clears any existing timer for that key (`clearTimeout`), arms a fresh timer
for `DEBOUNCE_MS`, and stores its id in `debounceMap` under the key.  When a
timer fires it first deletes its map entry, then submits the upload or
delete for its captured `(type, filePath)` to the limiter.  We model the
debounce state as the list of pending timers in firing order plus the list
of operations submitted to the limiter so far, and drive it with a
chronological list of `(time, kind, path)` notifications; timers due at or
before the current instant fire before the notification is handled. -/

/-- Filesystem notification kinds delivered by the watch collaborator. -/
inductive EventKind where
  | add
  | change
  | unlink
deriving DecidableEq

/-- Operation kinds submitted to the Dispatch Limiter. -/
inductive OpKind where
  | upload
  | delete
deriving DecidableEq

/-- The operation a fired timer submits (watcher.js lines 154-158):
`add`/`change` upload, `unlink` deletes. -/
def opOf : EventKind → OpKind
  | .add => .upload
  | .change => .upload
  | .unlink => .delete

/-- One armed debounce timer: when it fires and the captured notification. -/
structure Pending where
  fireAt : Nat
  kind : EventKind
  path : String
deriving DecidableEq

/-- Debouncer state: `pending` is `debounceMap` (with each timer's firing
instant) in firing order; `submitted` records the operations handed to the
Dispatch Limiter, each with its submission instant. -/
structure DebState where
  pending : List (String × Pending)
  submitted : List (Nat × OpKind × String)
deriving DecidableEq

/-- The initial, empty debouncer state (`const debounceMap = new Map()`). -/
def initDeb : DebState := ⟨[], []⟩

/-- Fire every timer due by `now`: each due timer submits its operation
(watcher.js lines 152-159) and its map entry is deleted (line 153). -/
def fireDue (now : Nat) (s : DebState) : DebState :=
  ⟨s.pending.filter (fun kv => ¬ kv.2.fireAt ≤ now),
   s.submitted ++ (s.pending.filter (fun kv => kv.2.fireAt ≤ now)).map
     (fun kv => (kv.2.fireAt, opOf kv.2.kind, kv.2.path))⟩

/-- `scheduleOp(type, filePath)` at instant `now` (watcher.js lines
146-161): compute the key, clear the key's previous timer if any, arm a new
timer for `now + DEBOUNCE_MS` capturing this notification. -/
def scheduleOp (sep : Char) (cwd localDir : String) (debounceMs : Nat)
    (now : Nat) (kind : EventKind) (path : String) (s : DebState) : DebState :=
  let key := localPathToKey sep cwd localDir path
  { s with pending := s.pending.filter (fun kv => ¬ kv.1 = key) ++
      [(key, ⟨now + debounceMs, kind, path⟩)] }

/-- Handle one notification `(time, kind, path)`: timers due by `time` fire
first, then the notification is debounced. -/
def stepNotify (sep : Char) (cwd localDir : String) (debounceMs : Nat)
    (s : DebState) (ev : Nat × EventKind × String) : DebState :=
  scheduleOp sep cwd localDir debounceMs ev.1 ev.2.1 ev.2.2 (fireDue ev.1 s)

/-- Run the debouncer over a chronological notification list, then let time
advance to `horizon` so that remaining timers fire. -/
def runDeb (sep : Char) (cwd localDir : String) (debounceMs : Nat)
    (events : List (Nat × EventKind × String)) (horizon : Nat) : DebState :=
  fireDue horizon (events.foldl (stepNotify sep cwd localDir debounceMs) initDeb)

/-- The keys of the pending map are distinct (at most one pending operation
per RemoteKey). -/
def keysNodup (s : DebState) : Prop := (s.pending.map Prod.fst).Nodup

/-- Within a burst (next notification strictly before the pending timer
fires) on the same key, a notification replaces the single pending entry. -/
theorem stepNotify_burst (sep : Char) (cwd localDir : String) (D : Nat) (key : String)
    (t0 t1 : Nat) (k0 k1 : EventKind) (p0 p1 : String)
    (hk1 : localPathToKey sep cwd localDir p1 = key)
    (hlt : t1 < t0 + D) :
    stepNotify sep cwd localDir D ⟨[(key, ⟨t0 + D, k0, p0⟩)], []⟩ (t1, k1, p1) =
      ⟨[(key, ⟨t1 + D, k1, p1⟩)], []⟩ := by
  have h1 : ¬ (t0 + D ≤ t1) := by omega
  simp [stepNotify, fireDue, scheduleOp, hk1, h1]

/-- Handling the first notification of a burst from the empty state arms a
single timer capturing it. -/
theorem stepNotify_initDeb (sep : Char) (cwd localDir : String) (D : Nat) (key : String)
    (t0 : Nat) (k0 : EventKind) (p0 : String)
    (hk : localPathToKey sep cwd localDir p0 = key) :
    stepNotify sep cwd localDir D initDeb (t0, k0, p0) =
      ⟨[(key, ⟨t0 + D, k0, p0⟩)], []⟩ := by
  simp [stepNotify, fireDue, scheduleOp, initDeb, hk]

/-- Folding a same-key burst over a single-entry state keeps exactly one
pending entry, the one for the last notification, and submits nothing. -/
theorem burst_fold (sep : Char) (cwd localDir : String) (D : Nat) (key : String) :
    ∀ (es : List (Nat × EventKind × String)) (t0 : Nat) (k0 : EventKind) (p0 : String)
      (tl : Nat) (kl : EventKind) (pl : String),
      (∀ e ∈ es, localPathToKey sep cwd localDir e.2.2 = key) →
      List.Chain' (fun a b => a.1 ≤ b.1 ∧ b.1 < a.1 + D) ((t0, k0, p0) :: es) →
      ((t0, k0, p0) :: es).getLast? = some (tl, kl, pl) →
      es.foldl (stepNotify sep cwd localDir D) ⟨[(key, ⟨t0 + D, k0, p0⟩)], []⟩ =
        ⟨[(key, ⟨tl + D, kl, pl⟩)], []⟩ := by
  intro es
  induction es with
  | nil =>
    intro t0 k0 p0 tl kl pl _ _ hlast
    simp only [List.getLast?_singleton, Option.some.injEq, Prod.mk.injEq] at hlast
    obtain ⟨h1, h2, h3⟩ := hlast
    subst h1; subst h2; subst h3
    rfl
  | cons e1 es' ih =>
    intro t0 k0 p0 tl kl pl hkeys hchain hlast
    obtain ⟨t1, k1, p1⟩ := e1
    have hrel := (List.chain'_cons.mp hchain).1
    have hchain' := (List.chain'_cons.mp hchain).2
    rw [List.getLast?_cons_cons] at hlast
    rw [List.foldl_cons,
      stepNotify_burst sep cwd localDir D key t0 t1 k0 k1 p0 p1
        (hkeys (t1, k1, p1) (List.mem_cons_self _ _)) hrel.2]
    exact ih t1 k1 p1 tl kl pl
      (fun e he => hkeys e (List.mem_cons_of_mem _ he)) hchain' hlast

theorem keysNodup_fireDue (now : Nat) (s : DebState) (h : keysNodup s) :
    keysNodup (fireDue now s) := by
  unfold keysNodup fireDue
  exact h.sublist (s.pending.filter_sublist.map Prod.fst)

theorem keysNodup_scheduleOp (sep : Char) (cwd localDir : String) (debounceMs : Nat)
    (now : Nat) (kind : EventKind) (path : String) (s : DebState) (h : keysNodup s) :
    keysNodup (scheduleOp sep cwd localDir debounceMs now kind path s) := by
  unfold keysNodup scheduleOp
  rw [List.map_append]
  refine List.Nodup.append
    (h.sublist (s.pending.filter_sublist.map Prod.fst)) (by simp) ?_
  intro a ha hb
  simp only [List.map_cons, List.map_nil, List.mem_singleton] at hb
  subst hb
  rcases List.mem_map.mp ha with ⟨kv, hkv, hfst⟩
  rcases List.mem_filter.mp hkv with ⟨_, hpred⟩
  rw [hfst] at hpred
  simp at hpred

/-- Every state the debouncer passes through (observed between
notifications) has at most one pending entry per key. -/
theorem keysNodup_scanl (sep : Char) (cwd localDir : String) (D : Nat) :
    ∀ (evs : List (Nat × EventKind × String)) (s0 : DebState), keysNodup s0 →
      ∀ s ∈ List.scanl (stepNotify sep cwd localDir D) s0 evs, keysNodup s := by
  intro evs
  induction evs with
  | nil =>
    intro s0 h s hs
    simp only [List.scanl_nil, List.mem_singleton] at hs
    subst hs; exact h
  | cons e es ih =>
    intro s0 h s hs
    rw [List.scanl_cons] at hs
    rcases List.mem_cons.mp hs with rfl | hs
    · exact h
    · exact ih _ (keysNodup_scheduleOp _ _ _ _ _ _ _ _ (keysNodup_fireDue _ _ h)) s hs

/-- A fired timer's record is gone: after `fireDue now`, no pending entry is
due at or before `now`. -/
theorem fireDue_clears_record (now : Nat) (s : DebState) :
    ∀ kv ∈ (fireDue now s).pending, ¬ kv.2.fireAt ≤ now := by
  intro kv hkv
  unfold fireDue at hkv
  simp only [List.mem_filter, decide_not] at hkv
  simpa using hkv.2

/-- C1 — Debounce coalescing: for every burst of `K ≥ 1` notifications for
the same RemoteKey, each arriving less than `DEBOUNCE_MS` after the previous
one, exactly one operation is submitted to the Dispatch Limiter — at the
last notification's time plus `DEBOUNCE_MS`, carrying the kind and path of
the last notification — and the pending map is left empty; moreover the
debounce state always holds at most one pending operation per key
(re-triggering replaces), and a fired timer's pending record is cleared. -/
theorem debounce_coalescing (sep : Char) (cwd localDir : String) (D : Nat) (key : String)
    (e0 : Nat × EventKind × String) (es : List (Nat × EventKind × String))
    (tl : Nat) (kl : EventKind) (pl : String)
    (hkeys : ∀ e ∈ e0 :: es, localPathToKey sep cwd localDir e.2.2 = key)
    (hchain : List.Chain' (fun a b => a.1 ≤ b.1 ∧ b.1 < a.1 + D) (e0 :: es))
    (hlast : (e0 :: es).getLast? = some (tl, kl, pl)) :
    runDeb sep cwd localDir D (e0 :: es) (tl + D) = ⟨[], [(tl + D, opOf kl, pl)]⟩ ∧
    (∀ (evs : List (Nat × EventKind × String)),
      ∀ s ∈ List.scanl (stepNotify sep cwd localDir D) initDeb evs, keysNodup s) ∧
    (∀ (now : Nat) (t : DebState), ∀ kv ∈ (fireDue now t).pending,
      ¬ kv.2.fireAt ≤ now) := by
  refine ⟨?_, fun evs => keysNodup_scanl sep cwd localDir D evs initDeb (by simp [keysNodup, initDeb]),
          fireDue_clears_record⟩
  obtain ⟨t0, k0, p0⟩ := e0
  unfold runDeb
  rw [List.foldl_cons,
    stepNotify_initDeb sep cwd localDir D key t0 k0 p0
      (hkeys (t0, k0, p0) (List.mem_cons_self _ _)),
    burst_fold sep cwd localDir D key es t0 k0 p0 tl kl pl
      (fun e he => hkeys e (List.mem_cons_of_mem _ he)) hchain hlast]
  simp [fireDue]

/-- Witness for C1: the spec's example — `change`, `change`, `unlink` for
`a.pdf` at t = 0, 10, 20 with `DEBOUNCE_MS = 500` submit exactly one
operation, (Delete, `./pdf/a.pdf`), at t = 520. -/
theorem debounce_coalescing_witness :
    runDeb '/' "/h" "./pdf" 500
        [(0, EventKind.change, "./pdf/a.pdf"), (10, EventKind.change, "./pdf/a.pdf"),
         (20, EventKind.unlink, "./pdf/a.pdf")] (20 + 500) =
      ⟨[], [(20 + 500, opOf EventKind.unlink, "./pdf/a.pdf")]⟩ ∧
    (∀ (evs : List (Nat × EventKind × String)),
      ∀ s ∈ List.scanl (stepNotify '/' "/h" "./pdf" 500) initDeb evs, keysNodup s) ∧
    (∀ (now : Nat) (t : DebState), ∀ kv ∈ (fireDue now t).pending,
      ¬ kv.2.fireAt ≤ now) :=
  debounce_coalescing '/' "/h" "./pdf" 500 "a.pdf"
    (0, EventKind.change, "./pdf/a.pdf")
    [(10, EventKind.change, "./pdf/a.pdf"), (20, EventKind.unlink, "./pdf/a.pdf")]
    20 EventKind.unlink "./pdf/a.pdf"
    (by decide)
    (by refine List.Chain.cons ?_ (List.Chain.cons ?_ List.Chain.nil) <;> exact ⟨by decide, by decide⟩)
    (by decide)

/-! ## Dispatch Limiter (watcher.js line 38: `const limit = pLimit(CONCURRENCY)`)

The limiter's implementation is the external `p-limit` package, not part of
this repository's source tree; only its instantiation and call sites are in
`watcher.js`.  It is therefore modelled from the spec (§4.3): a bounded pool
of at most `CONCURRENCY` concurrently executing tasks; additional tasks
queue and begin in FIFO order as slots free. -/

/-- Modelled from the spec: the Dispatch Limiter's state — `active` is the
number of tasks currently executing their body, `queue` the tasks waiting in
arrival order, `started` the tasks admitted so far in admission order, and
`scheduled` every task ever scheduled, in scheduling order.  (The `p-limit`
implementation is missing from src/.) -/
structure LimState where
  active : Nat
  queue : List Nat
  started : List Nat
  scheduled : List Nat
deriving DecidableEq

/-- Modelled from the spec: the limiter starts idle and empty. -/
def limInit : LimState := ⟨0, [], [], []⟩

/-- Modelled from the spec: the limiter's transitions — scheduling enqueues
a task; a queued task is admitted (its body begins) only from the queue's
head and only when fewer than `limitN` tasks are active; a finishing task
frees its slot. -/
inductive LimStep (limitN : Nat) : LimState → LimState → Prop where
  | schedule (t : Nat) (s : LimState) :
      LimStep limitN s ⟨s.active, s.queue ++ [t], s.started, s.scheduled ++ [t]⟩
  | start (t : Nat) (rest : List Nat) (s : LimState) :
      s.active < limitN → s.queue = t :: rest →
      LimStep limitN s ⟨s.active + 1, rest, s.started ++ [t], s.scheduled⟩
  | finish (s : LimState) :
      0 < s.active → LimStep limitN s ⟨s.active - 1, s.queue, s.started, s.scheduled⟩

/-- Modelled from the spec: the states the limiter can reach from idle. -/
inductive LimReach (limitN : Nat) : LimState → Prop where
  | init : LimReach limitN limInit
  | step {s s' : LimState} : LimReach limitN s → LimStep limitN s s' →
      LimReach limitN s'

/-- C9 — Dispatch Limiter bound and order: in every reachable limiter state,
at most `CONCURRENCY` tasks are executing their bodies concurrently — no
matter how many were scheduled — and the admission order is FIFO: the tasks
scheduled so far are exactly the admitted ones followed by the still-queued
ones, in order. -/
theorem limiter_bound_and_fifo (limitN : Nat) (s : LimState)
    (h : LimReach limitN s) :
    s.active ≤ limitN ∧ s.scheduled = s.started ++ s.queue := by
  induction h with
  | init => exact ⟨Nat.zero_le _, rfl⟩
  | step hreach hstep ih =>
    cases hstep with
    | schedule t s =>
      exact ⟨ih.1, by simp [ih.2]⟩
    | start t rest s hlt hq =>
      refine ⟨by dsimp only; omega, ?_⟩
      dsimp only
      rw [ih.2, hq]
      simp
    | finish s hpos =>
      exact ⟨by dsimp only; omega, ih.2⟩

/-- Witness for C9: a concrete reachable state of a `CONCURRENCY = 1`
limiter — two tasks scheduled, the first admitted — satisfies the bound and
the FIFO decomposition. -/
theorem limiter_bound_and_fifo_witness :
    (⟨1, [1], [0], [0, 1]⟩ : LimState).active ≤ 1 ∧
    (⟨1, [1], [0], [0, 1]⟩ : LimState).scheduled =
      (⟨1, [1], [0], [0, 1]⟩ : LimState).started ++
        (⟨1, [1], [0], [0, 1]⟩ : LimState).queue :=
  limiter_bound_and_fifo 1 ⟨1, [1], [0], [0, 1]⟩
    (LimReach.step
      (LimReach.step
        (LimReach.step LimReach.init (LimStep.schedule 0 limInit))
        (LimStep.schedule 1 ⟨0, [0], [], [0]⟩))
      (LimStep.start 0 [1] ⟨0, [0, 1], [], [0, 1]⟩ (by decide) rfl))

/-! ## Sync Engine orchestration: `initialSync` and `main`
(watcher.js lines 108-130, 188-192)

`main()` runs `await ensureLocalDirExists()`, then `await initialSync()`,
then `startWatcher()`.  `initialSync` submits every walked file directly to
the limiter (`files.map((f) => limit(() => uploadFile(f)))`, line 128 — the
debouncer is not involved) and `await Promise.all` returns only when every
upload has settled (and C3 shows each settles: success or abandonment, never
a rejection).  The chokidar subscription is attached by `startWatcher`,
strictly afterwards.  The settling order of the concurrent uploads is
scheduler-dependent, so it is a parameter constrained to a permutation. -/

/-- Observable orchestration events of `main`. -/
inductive MainEv where
  | ensureDirOk
  | submitLimiter (op : OpKind) (path : String)
  | settled (op : OpKind) (path : String) (outcome : OpOutcome)
  | debounceArmed (key : String)
  | watcherAttached
deriving DecidableEq

/-- The events of `await initialSync()` (watcher.js lines 108-130): every
file is submitted to the limiter as an Upload, in walk order, and
`Promise.all` waits until each has settled, in some scheduler-chosen
order. -/
def initialSyncEvents (files settleOrder : List String)
    (outcomeOf : String → OpOutcome) : List MainEv :=
  files.map (fun f => MainEv.submitLimiter OpKind.upload f) ++
    settleOrder.map (fun f => MainEv.settled OpKind.upload f (outcomeOf f))

/-- The event trace of `main()` (watcher.js lines 188-192): directory check,
then the whole of initial sync, then the watcher attachment. -/
def mainTrace (files settleOrder : List String)
    (outcomeOf : String → OpOutcome) : List MainEv :=
  MainEv.ensureDirOk :: initialSyncEvents files settleOrder outcomeOf ++
    [MainEv.watcherAttached]

/-- C8 — Initial-sync ordering: every path discovered by the walker is
submitted as an Upload directly to the Dispatch Limiter (never through the
debouncer: no debounce event exists anywhere in the trace), each of those
operations settles within the initial-sync segment, and the watcher
attachment is the sole event after that segment — so the Watching state
begins only after every initial operation has settled. -/
theorem initial_sync_ordering (localDir : String) (tree : Option (List FsTree))
    (files settleOrder : List String) (outcomeOf : String → OpOutcome)
    (_hwalk : walkRoot localDir tree = .ok files)
    (hperm : settleOrder.Perm files) :
    (∀ f ∈ files, MainEv.submitLimiter OpKind.upload f ∈
        initialSyncEvents files settleOrder outcomeOf) ∧
    (∀ f ∈ files, MainEv.settled OpKind.upload f (outcomeOf f) ∈
        initialSyncEvents files settleOrder outcomeOf) ∧
    mainTrace files settleOrder outcomeOf =
      (MainEv.ensureDirOk :: initialSyncEvents files settleOrder outcomeOf) ++
        [MainEv.watcherAttached] ∧
    MainEv.watcherAttached ∉ initialSyncEvents files settleOrder outcomeOf ∧
    (∀ key, MainEv.debounceArmed key ∉ mainTrace files settleOrder outcomeOf) := by
  refine ⟨?_, ?_, by simp [mainTrace], ?_, ?_⟩
  · intro f hf
    exact List.mem_append_left _ (List.mem_map.mpr ⟨f, hf, rfl⟩)
  · intro f hf
    exact List.mem_append_right _
      (List.mem_map.mpr ⟨f, hperm.mem_iff.mpr hf, rfl⟩)
  · simp [initialSyncEvents]
  · intro key
    simp [mainTrace, initialSyncEvents]

/-- Witness for C8: a two-file tree, walked successfully, with the settling
order reversed relative to submission order. -/
theorem initial_sync_ordering_witness :
    (∀ f ∈ ["./pdf/a.pdf", "./pdf/b.pdf"], MainEv.submitLimiter OpKind.upload f ∈
        initialSyncEvents ["./pdf/a.pdf", "./pdf/b.pdf"]
          ["./pdf/b.pdf", "./pdf/a.pdf"] (fun _ => OpOutcome.success)) ∧
    (∀ f ∈ ["./pdf/a.pdf", "./pdf/b.pdf"],
        MainEv.settled OpKind.upload f ((fun _ => OpOutcome.success) f) ∈
        initialSyncEvents ["./pdf/a.pdf", "./pdf/b.pdf"]
          ["./pdf/b.pdf", "./pdf/a.pdf"] (fun _ => OpOutcome.success)) ∧
    mainTrace ["./pdf/a.pdf", "./pdf/b.pdf"] ["./pdf/b.pdf", "./pdf/a.pdf"]
        (fun _ => OpOutcome.success) =
      (MainEv.ensureDirOk :: initialSyncEvents ["./pdf/a.pdf", "./pdf/b.pdf"]
          ["./pdf/b.pdf", "./pdf/a.pdf"] (fun _ => OpOutcome.success)) ++
        [MainEv.watcherAttached] ∧
    MainEv.watcherAttached ∉ initialSyncEvents ["./pdf/a.pdf", "./pdf/b.pdf"]
        ["./pdf/b.pdf", "./pdf/a.pdf"] (fun _ => OpOutcome.success) ∧
    (∀ key, MainEv.debounceArmed key ∉
        mainTrace ["./pdf/a.pdf", "./pdf/b.pdf"] ["./pdf/b.pdf", "./pdf/a.pdf"]
          (fun _ => OpOutcome.success)) :=
  initial_sync_ordering "./pdf" (some [FsTree.file "a.pdf", FsTree.file "b.pdf"])
    ["./pdf/a.pdf", "./pdf/b.pdf"] ["./pdf/b.pdf", "./pdf/a.pdf"]
    (fun _ => OpOutcome.success) rfl (by decide)

end Watcher
